import Mathlib

/-- Python strings are modelled as lists of characters. -/
abbrev Str := List Char

/-- Conversion from a Lean string literal to the character-list model. -/
def chs (s : String) : Str := s.toList

/-- Greedy left-to-right split of `s` at the non-overlapping occurrences of
`old`, with explicit fuel (structural recursion so that concrete instances
compute by `decide`).  `fuel ≥ s.length` makes the fallback branch
unreachable. -/
def splitOnSubF (old : Str) : Nat → Str → List Str
  | _, [] => [[]]
  | 0, s => [s]
  | fuel + 1, c :: rest =>
    if old.isPrefixOf (c :: rest) ∧ old ≠ [] then
      [] :: splitOnSubF old fuel (rest.drop (old.length - 1))
    else
      match splitOnSubF old fuel rest with
      | p :: ps => (c :: p) :: ps
      | [] => [[c]]

/-- Greedy left-to-right split of `s` at the non-overlapping occurrences of
`old` (the decomposition underlying Python's `str.replace` for a non-empty
pattern). -/
def splitOnSub (old s : Str) : List Str := splitOnSubF old s.length s

/-- Join parts with a separator (`List.intercalate`, spelled out for easy
unfolding). -/
def joinParts (sep : Str) : List Str → Str
  | [] => []
  | [p] => p
  | p :: q :: ps => p ++ sep ++ joinParts sep (q :: ps)

/-- Python's substring test `pat in s`: `pat` occurs contiguously in `s`
(the empty pattern occurs in every string). -/
def containsSub : Str → Str → Bool
  | s, pat =>
    if pat.isPrefixOf s then true
    else
      match s with
      | [] => false
      | _ :: rest => containsSub rest pat

theorem containsSub_eq_true_iff (pat : Str) : ∀ s, containsSub s pat = true ↔ pat <:+: s := by
  intro s
  induction s with
  | nil =>
    rw [containsSub]
    constructor
    · intro h
      split at h
      · next hp => exact (List.isPrefixOf_iff_prefix.mp hp).isInfix
      · exact absurd h (by simp)
    · intro h
      have : pat = [] := List.eq_nil_of_infix_nil h
      subst this
      rfl
  | cons c rest ih =>
    rw [containsSub]
    constructor
    · intro h
      split at h
      · next hp => exact (List.isPrefixOf_iff_prefix.mp hp).isInfix
      · exact List.infix_cons_iff.mpr (Or.inr (ih.mp h))
    · intro h
      rcases List.infix_cons_iff.mp h with hp | hi
      · simp [List.isPrefixOf_iff_prefix.mpr hp]
      · split
        · rfl
        · exact ih.mpr hi

theorem splitOnSubF_ne_nil (old : Str) :
    ∀ fuel s, splitOnSubF old fuel s ≠ [] := by
  intro fuel
  induction fuel with
  | zero => intro s; cases s <;> simp [splitOnSubF]
  | succ n ih =>
    intro s
    cases s with
    | nil => simp [splitOnSubF]
    | cons c rest =>
      rw [splitOnSubF]
      split
      · exact List.cons_ne_nil _ _
      · split <;> exact List.cons_ne_nil _ _

example : splitOnSub (chs "ab") (chs "xabyab") = [chs "x", chs "y", []] := by decide

example : joinParts (chs "-") [chs "x", chs "y", []] = chs "x-y-" := by decide

/-- The head part produced by the splitter is a prefix of the input. -/
theorem splitOnSubF_head_prefix (old : Str) :
    ∀ fuel s p ps, splitOnSubF old fuel s = p :: ps → p <+: s := by
  intro fuel
  induction fuel with
  | zero =>
    intro s p ps h
    cases s with
    | nil => simp [splitOnSubF] at h; simp [h.1]
    | cons c rest =>
      simp only [splitOnSubF, List.cons.injEq] at h
      rw [← h.1]
  | succ n ih =>
    intro s p ps h
    cases s with
    | nil => simp [splitOnSubF] at h; simp [h.1]
    | cons c rest =>
      rw [splitOnSubF] at h
      split at h
      · rw [List.cons.injEq] at h
        rw [← h.1]
        exact List.nil_prefix
      · split at h
        · next q qs hq =>
          rw [List.cons.injEq] at h
          have := ih rest q qs hq
          rw [← h.1]
          exact List.cons_prefix_cons.mpr ⟨rfl, this⟩
        · next hq =>
          exact absurd hq (splitOnSubF_ne_nil old n rest)

/-- No part produced by the splitter still contains the pattern: the greedy
split consumes every occurrence. -/
theorem splitOnSubF_parts_not_infix (old : Str) (hold : old ≠ []) :
    ∀ fuel s, s.length ≤ fuel → ∀ p ∈ splitOnSubF old fuel s, ¬ old <:+: p := by
  intro fuel
  induction fuel with
  | zero =>
    intro s hs p hp
    have : s = [] := List.eq_nil_of_length_eq_zero (Nat.le_zero.mp hs)
    subst this
    simp [splitOnSubF] at hp
    subst hp
    intro hinf
    exact hold (List.eq_nil_of_infix_nil hinf)
  | succ n ih =>
    intro s hs p hp
    cases s with
    | nil =>
      simp [splitOnSubF] at hp
      subst hp
      intro hinf
      exact hold (List.eq_nil_of_infix_nil hinf)
    | cons c rest =>
      rw [splitOnSubF] at hp
      simp only [List.length_cons] at hs
      split at hp
      · next h =>
        rcases List.mem_cons.mp hp with hp0 | hprec
        · subst hp0
          intro hinf
          exact hold (List.eq_nil_of_infix_nil hinf)
        · have hlen : (rest.drop (old.length - 1)).length ≤ n := by
            simp only [List.length_drop]
            omega
          exact ih _ hlen p hprec
      · next h =>
        have hnp : ¬ old.isPrefixOf (c :: rest) = true := by
          intro hc
          exact h ⟨hc, hold⟩
        split at hp
        · next q qs hq =>
          rcases List.mem_cons.mp hp with hp0 | hprec
          · subst hp0
            intro hinf
            rcases List.infix_cons_iff.mp hinf with hpre | hinf'
            · have hqrest : q <+: rest := splitOnSubF_head_prefix old n rest q qs hq
              have : old <+: c :: rest :=
                hpre.trans (List.cons_prefix_cons.mpr ⟨rfl, hqrest⟩)
              exact hnp (List.isPrefixOf_iff_prefix.mpr this)
            · have hrlen : rest.length ≤ n := by omega
              exact ih rest hrlen q (by rw [hq]; exact List.mem_cons_self q qs) hinf'
          · have hrlen : rest.length ≤ n := by omega
            exact ih rest hrlen p (by rw [hq]; exact List.mem_cons_of_mem q hprec)
        · next hq =>
          exact absurd hq (splitOnSubF_ne_nil old n rest)

/-- Reassembly: interleaving the split parts with the pattern itself restores
the original string. -/
theorem joinParts_splitOnSubF (old : Str) (hold : old ≠ []) :
    ∀ fuel s, s.length ≤ fuel → joinParts old (splitOnSubF old fuel s) = s := by
  intro fuel
  induction fuel with
  | zero =>
    intro s hs
    have : s = [] := List.eq_nil_of_length_eq_zero (Nat.le_zero.mp hs)
    subst this
    simp [splitOnSubF, joinParts]
  | succ n ih =>
    intro s hs
    cases s with
    | nil => simp [splitOnSubF, joinParts]
    | cons c rest =>
      rw [splitOnSubF]
      by_cases h : old.isPrefixOf (c :: rest) ∧ old ≠ []
      · rw [if_pos h]
        obtain ⟨t, ht⟩ := List.isPrefixOf_iff_prefix.mp h.1
        have hlen : 1 ≤ old.length := List.length_pos.mpr hold
        have hdrop : rest.drop (old.length - 1) = t := by
          have h1 : (c :: rest).drop old.length = t := by
            rw [← ht]; simp
          have h2 : (c :: rest).drop old.length = rest.drop (old.length - 1) := by
            cases old with
            | nil => exact absurd rfl hold
            | cons o os => simp
          rw [← h2, h1]
        rw [hdrop]
        have htlen : t.length ≤ n := by
          have h3 := congrArg List.length ht
          simp only [List.length_cons, List.length_append] at h3
          simp only [List.length_cons] at hs
          omega
        have hjoin := ih t htlen
        rcases hsp : splitOnSubF old n t with _ | ⟨p, ps⟩
        · exact absurd hsp (splitOnSubF_ne_nil old n t)
        · rw [hsp] at hjoin
          calc joinParts old ([] :: p :: ps)
              = [] ++ old ++ joinParts old (p :: ps) := rfl
            _ = old ++ t := by rw [hjoin]; simp
            _ = c :: rest := by rw [← ht]
      · rw [if_neg h]
        have hrlen : rest.length ≤ n := by simp at hs; omega
        have hjoin := ih rest hrlen
        rcases hsp : splitOnSubF old n rest with _ | ⟨p, ps⟩
        · exact absurd hsp (splitOnSubF_ne_nil old n rest)
        · rw [hsp] at hjoin
          cases ps with
          | nil =>
            simp only [joinParts] at hjoin ⊢
            rw [hjoin]
          | cons q qs =>
            calc joinParts old ((c :: p) :: q :: qs)
                = (c :: p) ++ old ++ joinParts old (q :: qs) := rfl
              _ = c :: (p ++ old ++ joinParts old (q :: qs)) := by simp
              _ = c :: joinParts old (p :: q :: qs) := rfl
              _ = c :: rest := by rw [hjoin]

/-! ## Patch applier (`RepoSage.implement_changes`, bot.py lines 258-360)

`content.replace(original, improved)` is Python's full-text replace: all
non-overlapping occurrences of `original`, scanned left to right, are
replaced. -/

/-- Python's `s.replace(old, new)`: every non-overlapping occurrence of `old`
in `s`, scanned left to right, is replaced by `new`.  For the empty pattern,
Python inserts `new` before every character and after the last one
(`"abc".replace("", "-") == "-a-b-c-"`). -/
def pyReplace (s old new : Str) : Str :=
  if old = [] then new ++ s.foldr (fun c acc => c :: (new ++ acc)) []
  else joinParts new (splitOnSub old s)

example : pyReplace (chs "xabyab") (chs "ab") (chs "Z") = chs "xZyZ" := by decide

example : pyReplace (chs "abc") (chs "") (chs "-") = chs "-a-b-c-" := by decide

/-- One entry of the `suggested_changes` list of an analysis payload.  The
Python code receives plain dictionaries, so every key may be absent;
`implement_changes` only uses an entry when both `original_code` and
`improved_code` are present. -/
structure SuggestedChange where
  original_code : Option Str
  improved_code : Option Str
  explanation : Option Str
  test_code : Option Str
deriving Repr, DecidableEq

/-- The directive loop of `implement_changes` (bot.py lines 284-294): iterate
the suggested changes in order; when both keys are present and
`original_code` occurs in the *current* content, replace all occurrences and
increment `changes_applied`; otherwise leave content and counter untouched. -/
def implement_changes_loop : Str → Nat → List SuggestedChange → Str × Nat
  | content, n, [] => (content, n)
  | content, n, ch :: rest =>
    match ch.original_code, ch.improved_code with
    | some original, some improved =>
      if containsSub content original then
        implement_changes_loop (pyReplace content original improved) (n + 1) rest
      else
        implement_changes_loop content n rest
    | _, _ => implement_changes_loop content n rest

/-- The result dictionary built by `implement_changes` (bot.py lines
351-357).  The `analysis` entry is represented by its `suggested_changes`
list, the only part of the payload the downstream pure code reads. -/
structure FileChangeSet where
  file_path : Str
  content : Str
  original_content : Str
  changes_applied : Nat
  suggested_changes : List SuggestedChange
deriving Repr, DecidableEq

/-- `implement_changes` (bot.py lines 258-299): reject an absent or empty
`suggested_changes` list, run the directive loop over the fetched original
content, and return `None` unless the content changed and at least one
directive was applied.  Repository I/O (fetching the file, committing) is
outside the model; the fetched original content is a parameter. -/
def implement_changes (file_path : Str) (suggested_changes : List SuggestedChange)
    (original_content : Str) : Option FileChangeSet :=
  if suggested_changes = [] then none
  else if (implement_changes_loop original_content 0 suggested_changes).1 = original_content
      ∨ (implement_changes_loop original_content 0 suggested_changes).2 = 0 then none
  else some ⟨file_path, (implement_changes_loop original_content 0 suggested_changes).1,
    original_content, (implement_changes_loop original_content 0 suggested_changes).2,
    suggested_changes⟩

/-- If no directive's pattern occurs in `c`, the loop leaves content and
counter unchanged. -/
theorem implement_changes_loop_no_fire (c : Str) :
    ∀ (ds : List SuggestedChange) (n : Nat),
      (∀ ch ∈ ds, ∀ o, ch.original_code = some o → containsSub c o = false) →
      implement_changes_loop c n ds = (c, n) := by
  intro ds
  induction ds with
  | nil => intro n _; rfl
  | cons ch rest ih =>
    intro n h
    have hrest : ∀ ch' ∈ rest, ∀ o, ch'.original_code = some o → containsSub c o = false :=
      fun ch' hch' o ho => h ch' (List.mem_cons_of_mem ch hch') o ho
    obtain ⟨oc, ic, ex, tc⟩ := ch
    cases oc with
    | none =>
      cases ic with
      | none => simp only [implement_changes_loop]; exact ih n hrest
      | some improved => simp only [implement_changes_loop]; exact ih n hrest
    | some original =>
      have hc : containsSub c original = false :=
        h _ (List.mem_cons_self _ _) original rfl
      cases ic with
      | none => simp only [implement_changes_loop]; exact ih n hrest
      | some improved =>
        simp only [implement_changes_loop, hc, Bool.false_eq_true, if_false]
        exact ih n hrest

/-- C1: patch application iterates the directives in order against the
current working copy.  A directive whose `original_code` occurs in the
current content replaces all non-overlapping occurrences (witnessed by the
greedy occurrence decomposition: the parts rejoin with the pattern to the
original content and no part still contains the pattern) and increments the
applied-count by one; a directive whose pattern does not occur leaves content
and count unchanged, and no error is raised (the loop is a total function). -/
theorem patch_applier_step (content : Str) (count : Nat) (ch : SuggestedChange)
    (rest : List SuggestedChange) (o i : Str)
    (ho : ch.original_code = some o) (hi : ch.improved_code = some i) :
    (containsSub content o = true →
      implement_changes_loop content count (ch :: rest)
        = implement_changes_loop (pyReplace content o i) (count + 1) rest)
    ∧ (containsSub content o = false →
      implement_changes_loop content count (ch :: rest)
        = implement_changes_loop content count rest)
    ∧ (o ≠ [] →
        joinParts o (splitOnSub o content) = content
        ∧ ∀ p ∈ splitOnSub o content, ¬ o <:+: p) := by
  obtain ⟨oc, ic, ex, tc⟩ := ch
  have ho' : oc = some o := ho
  have hi' : ic = some i := hi
  subst ho'
  subst hi'
  refine ⟨?_, ?_, ?_⟩
  · intro hct
    simp only [implement_changes_loop, hct, if_true]
  · intro hcf
    simp only [implement_changes_loop, hcf, Bool.false_eq_true, if_false]
  · intro hne
    exact ⟨joinParts_splitOnSubF o hne content.length content le_rfl,
           splitOnSubF_parts_not_infix o hne content.length content le_rfl⟩

theorem patch_applier_step_witness :
    containsSub (chs "abcabc") (chs "b") = true ∧
    implement_changes_loop (chs "abcabc") 0
        [⟨some (chs "b"), some (chs "X"), none, none⟩]
      = implement_changes_loop (pyReplace (chs "abcabc") (chs "b") (chs "X")) 1 [] :=
  ⟨by decide,
    (patch_applier_step (chs "abcabc") 0 ⟨some (chs "b"), some (chs "X"), none, none⟩
      [] (chs "b") (chs "X") rfl rfl).1 (by decide)⟩

/-- C5: a `FileChangeSet` is produced only when the patched content differs
from the original snapshot and at least one directive applied; if the loop
leaves the content equal to the original or applies zero directives,
`implement_changes` returns `None`. -/
theorem implement_changes_guard (fp : Str) (cs : List SuggestedChange) (orig : Str) :
    (∀ fcs, implement_changes fp cs orig = some fcs →
        fcs.content ≠ fcs.original_content ∧ 1 ≤ fcs.changes_applied
          ∧ fcs.original_content = orig ∧ fcs.content = (implement_changes_loop orig 0 cs).1)
    ∧ ((implement_changes_loop orig 0 cs).1 = orig ∨ (implement_changes_loop orig 0 cs).2 = 0 →
        implement_changes fp cs orig = none) := by
  constructor
  · intro fcs hfcs
    unfold implement_changes at hfcs
    split at hfcs
    · exact absurd hfcs (by simp)
    · split at hfcs
      · exact absurd hfcs (by simp)
      · next h2 =>
        push_neg at h2
        rw [Option.some.injEq] at hfcs
        subst hfcs
        exact ⟨h2.1, Nat.one_le_iff_ne_zero.mpr h2.2, rfl, rfl⟩
  · intro hdisj
    unfold implement_changes
    by_cases hcs : cs = []
    · rw [if_pos hcs]
    · rw [if_neg hcs, if_pos hdisj]

theorem implement_changes_guard_witness :
    ((implement_changes_loop (chs "x") 0 [⟨some (chs "x"), some (chs "x"), none, none⟩]).1
        = chs "x"
      ∨ (implement_changes_loop (chs "x") 0
          [⟨some (chs "x"), some (chs "x"), none, none⟩]).2 = 0)
    ∧ implement_changes (chs "f.py") [⟨some (chs "x"), some (chs "x"), none, none⟩]
        (chs "x") = none :=
  ⟨by decide,
    (implement_changes_guard (chs "f.py") [⟨some (chs "x"), some (chs "x"), none, none⟩]
      (chs "x")).2 (by decide)⟩

/-- C6: once no directive's `original_code` occurs in the output of
`apply(C, D)`, applying the directive list a second time to that output
leaves it unchanged (and applies zero directives). -/
theorem patch_applier_idempotent (C0 : Str) (D : List SuggestedChange)
    (h : ∀ ch ∈ D, ∀ o, ch.original_code = some o →
        containsSub (implement_changes_loop C0 0 D).1 o = false) :
    implement_changes_loop (implement_changes_loop C0 0 D).1 0 D
      = ((implement_changes_loop C0 0 D).1, 0) :=
  implement_changes_loop_no_fire _ D 0 h

theorem patch_applier_idempotent_witness :
    implement_changes_loop
        (implement_changes_loop (chs "aa") 0
          [⟨some (chs "a"), some (chs "b"), none, none⟩]).1 0
        [⟨some (chs "a"), some (chs "b"), none, none⟩]
      = ((implement_changes_loop (chs "aa") 0
          [⟨some (chs "a"), some (chs "b"), none, none⟩]).1, 0) :=
  patch_applier_idempotent (chs "aa") [⟨some (chs "a"), some (chs "b"), none, none⟩] (by
    intro ch hch o ho
    rw [List.mem_singleton] at hch
    subst hch
    have ho' : some (chs "a") = some o := ho
    have : o = chs "a" := (Option.some.injEq _ _).mp ho'.symm
    subst this
    decide)

/-! ## File filtering (`should_analyze_file` bot.py lines 891-912,
`fetch_repo_files` lines 61-86) -/

/-- `IGNORED_DIRECTORIES` (bot.py line 27). -/
def IGNORED_DIRECTORIES : List Str :=
  [chs "node_modules", chs "venv", chs ".git", chs "__pycache__", chs "dist", chs "build"]

/-- `SUPPORTED_FILE_EXTENSIONS` (bot.py line 26). -/
def SUPPORTED_FILE_EXTENSIONS : List Str :=
  [chs ".py", chs ".js", chs ".java", chs ".ts", chs ".jsx", chs ".tsx",
   chs ".html", chs ".css", chs ".md", chs ".yml", chs ".yaml"]

/-- `MAX_FILE_SIZE` (bot.py line 28): 100 KB. -/
def MAX_FILE_SIZE : Nat := 100 * 1024

/-- The ignored-directory test used by both `fetch_repo_files` (line 72) and
`should_analyze_file` (line 905): `any(ignored_dir in path for ignored_dir in
IGNORED_DIRECTORIES)` — plain substring containment over the full path. -/
def path_in_ignored_dirs (path : Str) : Bool :=
  IGNORED_DIRECTORIES.any (fun d => containsSub path d)

/-- The skip condition of the `fetch_repo_files` tree walk (bot.py lines
71-73): an entry whose path contains an ignored directory name is skipped
(`continue`) and never reaches the result list. -/
def fetch_repo_files_skips (path : Str) : Bool := path_in_ignored_dirs path

/-- `should_analyze_file` (bot.py lines 891-912): drop files over the size
limit, files whose path contains an ignored directory name, and unsupported
extensions. -/
def should_analyze_file (size : Nat) (path : Str) : Bool :=
  if MAX_FILE_SIZE < size then false
  else if path_in_ignored_dirs path then false
  else if !(SUPPORTED_FILE_EXTENSIONS.any (fun ext => ext.isSuffixOf path)) then false
  else true

/-- C9: the ignored-directory filter is substring containment over the full
path: any path containing an ignored directory name anywhere as a substring
(also inside a longer word, e.g. `dist` inside `distance`) is rejected by
`should_analyze_file` and skipped by `fetch_repo_files`, for every file
size. -/
theorem ignored_dir_substring_filter (path : Str) (size : Nat) (d : Str)
    (hd : d ∈ IGNORED_DIRECTORIES) (hin : containsSub path d = true) :
    should_analyze_file size path = false ∧ fetch_repo_files_skips path = true := by
  have hig : path_in_ignored_dirs path = true :=
    List.any_eq_true.mpr ⟨d, hd, hin⟩
  refine ⟨?_, hig⟩
  unfold should_analyze_file
  rw [hig]
  split
  · rfl
  · rfl

theorem ignored_dir_substring_filter_witness :
    (chs "dist" ∈ IGNORED_DIRECTORIES ∧ containsSub (chs "src/distance.py") (chs "dist") = true)
    ∧ should_analyze_file 10 (chs "src/distance.py") = false
    ∧ fetch_repo_files_skips (chs "src/distance.py") = true :=
  ⟨⟨by decide, by decide⟩,
    ignored_dir_substring_filter (chs "src/distance.py") 10 (chs "dist")
      (by decide) (by decide)⟩

/-! ## Analysis scheduler: sequential mode (`analyze_files_parallel`,
bot.py lines 438-488) -/

/-- A Python exception escaping a per-file analysis call, caught by the
scheduler loop. -/
inductive PyErr where
  | exn (msg : Str)
deriving Repr, DecidableEq

/-- The sequential branch of `analyze_files_parallel` (bot.py lines 451-466),
taken when `use_parallel` is false: iterate the files in order; append each
non-`None` result; a `None` result or a raised exception is logged and
skipped. -/
def analyze_files_sequential {F R : Type} (analyze : F → Except PyErr (Option R)) :
    List F → List R
  | [] => []
  | f :: fs =>
    match analyze f with
    | .ok (some r) => r :: analyze_files_sequential analyze fs
    | .ok none => analyze_files_sequential analyze fs
    | .error _ => analyze_files_sequential analyze fs

/-- `analyze_files_parallel` (bot.py lines 438-488): dispatches to the
sequential loop when `use_parallel` is false; in parallel mode results are
collected in completion order, modelled by an oracle parameter. -/
def analyze_files_parallel {F R : Type} (use_parallel : Bool)
    (analyze : F → Except PyErr (Option R)) (files : List F)
    (parallel_result : List R) : List R :=
  if use_parallel then parallel_result
  else analyze_files_sequential analyze files

/-- C8: with parallel execution disabled the pipeline analyzes files one at a
time in input order, and the collected result list is the order-preserving
`filterMap` of the per-file outcomes over the input order. -/
theorem sequential_mode_order (F R : Type) (analyze : F → Except PyErr (Option R))
    (files : List F) (parallel_result : List R) :
    analyze_files_parallel false analyze files parallel_result
      = files.filterMap (fun f =>
          match analyze f with
          | .ok (some r) => some r
          | .ok none => none
          | .error _ => none) := by
  show analyze_files_sequential analyze files = _
  induction files with
  | nil => rfl
  | cons f fs ih =>
    rw [analyze_files_sequential, List.filterMap_cons]
    cases hf : analyze f with
    | error e => simpa [hf] using ih
    | ok r =>
      cases r with
      | none => simpa [hf] using ih
      | some v => simp [hf, ih]

theorem sequential_mode_order_witness :
    analyze_files_parallel false
        (fun n : Nat => (Except.ok (some n) : Except PyErr (Option Nat))) [1, 2, 3] []
      = [1, 2, 3] := by
  rw [sequential_mode_order Nat Nat _ [1, 2, 3] []]
  rfl

/-! ## Python `str.strip()` and whitespace -/

/-- The characters stripped by Python's `str.strip()` (and matched by the
regex class `\s`) for ASCII text: space, tab, newline, carriage return,
vertical tab and form feed. -/
def isPyWs (c : Char) : Bool :=
  c = ' ' || c = '\t' || c = '\n' || c = '\r' || c = '\x0b' || c = '\x0c'

/-- Python `str.lstrip()`. -/
def pyTrimLeft (s : Str) : Str := s.dropWhile isPyWs

/-- Python `str.rstrip()`. -/
def pyTrimRight (s : Str) : Str := (s.reverse.dropWhile isPyWs).reverse

/-- Python `str.strip()`: remove leading and trailing whitespace. -/
def pyStrip (s : Str) : Str := pyTrimRight (pyTrimLeft s)

example : pyStrip (chs " \n a b\n\t") = chs "a b" := by decide

theorem pyTrimRight_suffix_mono (u v : Str) (h : u <:+ v) :
    pyTrimRight u <:+ pyTrimRight v := by
  obtain ⟨w, rfl⟩ := h
  unfold pyTrimRight
  rw [List.reverse_append, List.dropWhile_append]
  split
  · next he =>
    rw [List.isEmpty_iff] at he
    rw [he]
    simp only [List.reverse_nil]
    exact List.nil_suffix
  · rw [List.reverse_append, List.reverse_reverse]
    exact ⟨w, rfl⟩

theorem pyStrip_suffix_append (x e : Str) : pyStrip e <:+ pyStrip (x ++ e) := by
  unfold pyStrip
  apply pyTrimRight_suffix_mono
  unfold pyTrimLeft
  rw [List.dropWhile_append]
  split
  · exact List.suffix_rfl
  · exact (List.dropWhile_suffix isPyWs).trans ⟨x.dropWhile isPyWs, rfl⟩

/-! ## Sandbox test runner (`run_tests`, bot.py lines 813-889) and the
direct-commit gate (`commit_changes_directly`, bot.py lines 591-703)

The subprocess invocations (git clone, test command) are external; their exit
codes and captured streams are parameters.  The outcome computation of
`run_tests` (lines 845-885) is modelled exactly: a failed clone returns the
clone's stderr; a zero test exit status returns `(True, stdout)`; a non-zero
one returns `(False, (stdout + "\n" + stderr).strip())`. -/

def run_tests_outcome (clone_rc : Int) (clone_stderr : Str) (test_rc : Int)
    (test_stdout test_stderr : Str) : Bool × Str :=
  if clone_rc ≠ 0 then (false, clone_stderr)
  else if test_rc = 0 then (true, test_stdout)
  else (false, pyStrip (test_stdout ++ '\n' :: test_stderr))

/-- `generate_commit_message` (bot.py lines 914-936). -/
def generate_commit_message (file_path : Str) (suggested_changes : List SuggestedChange) :
    Str :=
  chs "Improve " ++ file_path ++ chs "\n\n"
    ++ chs "RepoSage: AI-suggested improvements\n\n"
    ++ chs "Changes to " ++ file_path ++ chs ":\n"
    ++ suggested_changes.foldl (fun acc s =>
        match s.explanation with
        | some e => acc ++ chs "- " ++ e ++ chs "\n"
        | none => acc) []

/-- `generate_commit_messages` (bot.py lines 938-968): one message per file
change with a positive applied-count, and the total applied-count. -/
def generate_commit_messages (changes_list : List FileChangeSet) : List Str × Nat :=
  changes_list.foldl (fun acc c =>
    if 0 < c.changes_applied then
      (acc.1 ++ [generate_commit_message c.file_path c.suggested_changes],
       acc.2 + c.changes_applied)
    else acc) ([], 0)

/-- A write against the hosted repository (`repo.update_file` /
`repo.create_file`). -/
structure RepoWrite where
  path : Str
  content : Str
  branch : Str
deriving Repr, DecidableEq

/-- `commit_changes_directly` (bot.py lines 591-703), with the writes it
performs against the repository made explicit in the result.  The test-run
outcome is a parameter (the subprocess is external); `update_ok` tells which
per-file `repo.update_file` calls succeed, and `changelog_writes` stands for
the writes performed by the `update_changelog` call at line 633 (both only
reachable after the test gate).  Test-file writes and the interpolated counts
inside the success/failure messages are abbreviated; no claim depends on
them.  On the test-gate failure path (lines 625-628) the function returns
`(False, "Tests failed: " + output)` before any repository write. -/
def commit_changes_directly (base_branch : Str) (changes_list : List FileChangeSet)
    (run_tests_flag : Bool) (test_outcome : Bool × Str) (update_ok : Str → Bool)
    (changelog_writes : List RepoWrite) : (Bool × Str) × List RepoWrite :=
  if changes_list = [] then ((false, chs "No changes to commit"), [])
  else if (generate_commit_messages changes_list).2 = 0 then
    ((false, chs "No actual changes to commit"), [])
  else if run_tests_flag ∧ test_outcome.1 = false then
    ((false, chs "Tests failed: " ++ test_outcome.2), [])
  else
    if 0 < (changes_list.filter (fun c => update_ok c.file_path)).length then
      ((true, chs "Successfully committed changes to " ++ base_branch),
        changelog_writes ++ (changes_list.filter (fun c => update_ok c.file_path)).map
          (fun c => RepoWrite.mk c.file_path c.content base_branch))
    else
      ((false, chs "Failed to commit any changes"),
        changelog_writes ++ (changes_list.filter (fun c => update_ok c.file_path)).map
          (fun c => RepoWrite.mk c.file_path c.content base_branch))

/-- Counterexample to C3 as stated: with stdout `""` and captured stderr
`"boom\n"`, a failing test run (exit code 1) produces the output
`("" + "\n" + "boom\n").strip() = "boom"`, which does not contain the
captured stderr `"boom\n"` as a substring. -/
theorem test_failure_gate_counterexample :
    run_tests_outcome 0 [] 1 [] (chs "boom\n") = (false, chs "boom")
    ∧ containsSub (run_tests_outcome 0 [] 1 [] (chs "boom\n")).2 (chs "boom\n") = false := by
  constructor
  · decide
  · decide

/-- C3 (amended): when the sandbox test run exits with non-zero status, the
direct-commit path returns failure with an output string containing the
whitespace-stripped captured stderr, and performs no repository writes for
that batch. -/
theorem test_failure_gate (base : Str) (changes : List FileChangeSet)
    (clone_err out err : Str) (rc : Int) (update_ok : Str → Bool)
    (changelog_writes : List RepoWrite)
    (hrc : rc ≠ 0) (hne : changes ≠ [])
    (htot : (generate_commit_messages changes).2 ≠ 0) :
    (run_tests_outcome 0 clone_err rc out err).1 = false
    ∧ containsSub (run_tests_outcome 0 clone_err rc out err).2 (pyStrip err) = true
    ∧ commit_changes_directly base changes true (run_tests_outcome 0 clone_err rc out err)
        update_ok changelog_writes
      = ((false, chs "Tests failed: " ++ (run_tests_outcome 0 clone_err rc out err).2), []) := by
  have hout : run_tests_outcome 0 clone_err rc out err
      = (false, pyStrip (out ++ '\n' :: err)) := by
    unfold run_tests_outcome
    rw [if_neg (by simp), if_neg hrc]
  refine ⟨by rw [hout], ?_, ?_⟩
  · rw [hout]
    apply (containsSub_eq_true_iff (pyStrip err) _).mpr
    apply List.IsSuffix.isInfix
    have : out ++ '\n' :: err = (out ++ ['\n']) ++ err := by simp
    rw [this]
    exact pyStrip_suffix_append (out ++ ['\n']) err
  · unfold commit_changes_directly
    rw [if_neg hne, if_neg htot, if_pos ⟨rfl, by rw [hout]⟩]

theorem test_failure_gate_witness :
    (run_tests_outcome 0 [] 1 (chs "out") (chs "boom\n")).1 = false
    ∧ containsSub (run_tests_outcome 0 [] 1 (chs "out") (chs "boom\n")).2
        (pyStrip (chs "boom\n")) = true
    ∧ commit_changes_directly (chs "main")
        [⟨chs "a.py", chs "new", chs "old", 1, []⟩] true
        (run_tests_outcome 0 [] 1 (chs "out") (chs "boom\n"))
        (fun _ => true) []
      = ((false, chs "Tests failed: "
          ++ (run_tests_outcome 0 [] 1 (chs "out") (chs "boom\n")).2), []) :=
  test_failure_gate (chs "main") [⟨chs "a.py", chs "new", chs "old", 1, []⟩]
    [] (chs "out") (chs "boom\n") 1 (fun _ => true) []
    (by decide) (by decide) (by decide)

/-! ## Changelog insertion (`update_changelog`, bot.py lines 1054-1186)

Lines 1130-1140: the new dated block is inserted at the end of the match of
the regex `## \[Unreleased\].*?(?=##|\Z)` (DOTALL): the literal heading, then
a lazy run of arbitrary characters ending at the first position where `##`
follows or the text ends.  The categorization that builds the block (lines
1076-1128) only determines the inserted text and is quantified over here. -/

/-- The literal `## [Unreleased]` heading matched by the regex. -/
def unreleasedHeading : Str := chs "## [Unreleased]"

/-- The literal `##` of the regex lookahead `(?=##|\Z)`. -/
def hashHash : Str := chs "##"

/-- Index of the first occurrence of `pat` in a string (the start position of
the leftmost `re.search` match of a pattern beginning with that literal). -/
def findSubstrIdx (pat : Str) : Str → Option Nat
  | [] => if pat.isPrefixOf ([] : Str) then some 0 else none
  | c :: rest =>
    if pat.isPrefixOf (c :: rest) then some 0
    else (findSubstrIdx pat rest).map (· + 1)

/-- Length of the lazy `.*?` run: the smallest number of characters to skip
until `##` follows or the string ends (the lookahead `(?=##|\Z)`). -/
def minLookahead : Str → Nat
  | [] => 0
  | c :: rest => if hashHash.isPrefixOf (c :: rest) then 0 else minLookahead rest + 1

/-- End position of the `## \[Unreleased\].*?(?=##|\Z)` match: `match.end()`
of bot.py line 1136, or `none` when the heading does not occur. -/
def searchUnreleasedEnd (doc : Str) : Option Nat :=
  (findSubstrIdx unreleasedHeading doc).map
    (fun p => p + unreleasedHeading.length
      + minLookahead (doc.drop (p + unreleasedHeading.length)))

/-- The insertion step of `update_changelog` (bot.py lines 1130-1140): splice
the new block at the end of the Unreleased match, or prepend a fresh
changelog skeleton when no Unreleased section exists. -/
def update_changelog_insert (today : Str) (current newContent : Str) : Str :=
  match searchUnreleasedEnd current with
  | some pos => current.take pos ++ newContent ++ current.drop pos
  | none =>
    chs "# Changelog\n\n## [Unreleased]\n\n## [" ++ today ++ chs "]\n\n"
      ++ newContent ++ current

/-- C4: inserting into a document containing `## [Unreleased]` followed by
the blank-line-separated `### Added` / `### Changed` / `### Fixed`
subsections places the new block directly after the `## [Unreleased]` heading
(and its blank line), and everything from the insertion point on — the
subsections and whatever follows them — is preserved byte-for-byte as the
tail of the updated document. -/
theorem changelog_insertion (pre post newContent today : Str)
    (hfirst : findSubstrIdx unreleasedHeading
        (pre ++ chs "## [Unreleased]\n\n### Added\n\n### Changed\n\n### Fixed\n\n" ++ post)
        = some pre.length) :
    update_changelog_insert today
        (pre ++ chs "## [Unreleased]\n\n### Added\n\n### Changed\n\n### Fixed\n\n" ++ post)
        newContent
      = (pre ++ chs "## [Unreleased]\n\n") ++ newContent
        ++ (chs "### Added\n\n### Changed\n\n### Fixed\n\n" ++ post) := by
  have hsplit : chs "## [Unreleased]\n\n### Added\n\n### Changed\n\n### Fixed\n\n"
      = unreleasedHeading ++ (chs "\n\n### Added\n\n### Changed\n\n### Fixed\n\n") := by
    decide
  have hassoc : pre ++ chs "## [Unreleased]\n\n### Added\n\n### Changed\n\n### Fixed\n\n" ++ post
      = (pre ++ unreleasedHeading)
        ++ (chs "\n\n### Added\n\n### Changed\n\n### Fixed\n\n" ++ post) := by
    rw [hsplit]
    simp [List.append_assoc]
  have hdrop : (pre ++ chs "## [Unreleased]\n\n### Added\n\n### Changed\n\n### Fixed\n\n" ++ post).drop
      (pre.length + unreleasedHeading.length)
      = chs "\n\n### Added\n\n### Changed\n\n### Fixed\n\n" ++ post := by
    rw [hassoc]
    exact List.drop_left' (by simp)
  have hml : minLookahead (chs "\n\n### Added\n\n### Changed\n\n### Fixed\n\n" ++ post) = 2 :=
    rfl
  unfold update_changelog_insert searchUnreleasedEnd
  rw [hfirst]
  simp only [Option.map_some', hdrop, hml]
  have htake : (pre ++ chs "## [Unreleased]\n\n### Added\n\n### Changed\n\n### Fixed\n\n" ++ post).take
      (pre.length + unreleasedHeading.length + 2)
      = pre ++ chs "## [Unreleased]\n\n" := by
    have hassoc2 : pre ++ chs "## [Unreleased]\n\n### Added\n\n### Changed\n\n### Fixed\n\n" ++ post
        = (pre ++ chs "## [Unreleased]\n\n")
          ++ (chs "### Added\n\n### Changed\n\n### Fixed\n\n" ++ post) := by
      have : chs "## [Unreleased]\n\n### Added\n\n### Changed\n\n### Fixed\n\n"
          = chs "## [Unreleased]\n\n" ++ chs "### Added\n\n### Changed\n\n### Fixed\n\n" := by
        decide
      rw [this]
      simp [List.append_assoc]
    rw [hassoc2]
    exact List.take_left' (by simp [unreleasedHeading, chs])
  have hdrop2 : (pre ++ chs "## [Unreleased]\n\n### Added\n\n### Changed\n\n### Fixed\n\n" ++ post).drop
      (pre.length + unreleasedHeading.length + 2)
      = chs "### Added\n\n### Changed\n\n### Fixed\n\n" ++ post := by
    have hassoc2 : pre ++ chs "## [Unreleased]\n\n### Added\n\n### Changed\n\n### Fixed\n\n" ++ post
        = (pre ++ chs "## [Unreleased]\n\n")
          ++ (chs "### Added\n\n### Changed\n\n### Fixed\n\n" ++ post) := by
      have : chs "## [Unreleased]\n\n### Added\n\n### Changed\n\n### Fixed\n\n"
          = chs "## [Unreleased]\n\n" ++ chs "### Added\n\n### Changed\n\n### Fixed\n\n" := by
        decide
      rw [this]
      simp [List.append_assoc]
    rw [hassoc2]
    exact List.drop_left' (by simp [unreleasedHeading, chs])
  rw [htake, hdrop2]

theorem changelog_insertion_witness :
    findSubstrIdx unreleasedHeading
        (chs "# Changelog\n\n"
          ++ chs "## [Unreleased]\n\n### Added\n\n### Changed\n\n### Fixed\n\n" ++ [])
        = some (chs "# Changelog\n\n").length
    ∧ update_changelog_insert (chs "2026-10-12")
        (chs "# Changelog\n\n"
          ++ chs "## [Unreleased]\n\n### Added\n\n### Changed\n\n### Fixed\n\n" ++ [])
        (chs "## [2026-10-12]\n\n### Fixed\n\n- bot.py: fix\n\n")
      = (chs "# Changelog\n\n" ++ chs "## [Unreleased]\n\n")
        ++ chs "## [2026-10-12]\n\n### Fixed\n\n- bot.py: fix\n\n"
        ++ (chs "### Added\n\n### Changed\n\n### Fixed\n\n" ++ []) :=
  ⟨by decide,
    changelog_insertion (chs "# Changelog\n\n") [] (chs "## [2026-10-12]\n\n### Fixed\n\n- bot.py: fix\n\n")
      (chs "2026-10-12") (by decide)⟩

/-! ## JSON values and `json.loads`

`analyze_file` calls `json.loads` on candidate substrings of the model
response (bot.py lines 181, 193, 203, 216).  The standard-library parser is
modelled as a total recursive-descent parser over the JSON grammar returning
`Except`: a `JSONDecodeError` becomes `Except.error`.  Numbers keep their
source lexeme (the claims never compare numeric values), and the non-standard
`NaN`/`Infinity` extensions of the Python parser are not modelled (no claim
involves them). -/

/-- The opening brace character, `{`. -/
def lbraceC : Char := Char.ofNat 123

/-- The closing brace character, `}`. -/
def rbraceC : Char := Char.ofNat 125

/-- JSON document values. -/
inductive Json where
  | null : Json
  | bool : Bool → Json
  | num : Str → Json
  | str : Str → Json
  | arr : List Json → Json
  | obj : List (Str × Json) → Json
deriving Repr

/-- The whitespace skipped between JSON tokens (RFC 8259). -/
def isJsonWs (c : Char) : Bool := c = ' ' || c = '\t' || c = '\n' || c = '\r'

def skipJsonWs (s : Str) : Str := s.dropWhile isJsonWs

def isJDigit (c : Char) : Bool := '0' ≤ c && c ≤ '9'

def hexVal (c : Char) : Option Nat :=
  if '0' ≤ c ∧ c ≤ '9' then some (c.toNat - '0'.toNat)
  else if 'a' ≤ c ∧ c ≤ 'f' then some (c.toNat - 'a'.toNat + 10)
  else if 'A' ≤ c ∧ c ≤ 'F' then some (c.toNat - 'A'.toNat + 10)
  else none

/-- Single-character string escapes of JSON. -/
def escChar (e : Char) : Option Char :=
  if e = '"' then some '"'
  else if e = '\\' then some '\\'
  else if e = '/' then some '/'
  else if e = 'b' then some '\x08'
  else if e = 'f' then some '\x0c'
  else if e = 'n' then some '\n'
  else if e = 'r' then some '\r'
  else if e = 't' then some '\t'
  else none

/-- Parse a JSON string body after the opening quote; returns the decoded
characters and the input following the closing quote.  Control characters are
rejected (the parser's default strict mode); `\uXXXX` escapes are mapped to
the character with that scalar value (surrogate pairing is not modelled; no
claim involves it). -/
def parseJStringBody : Str → Option (Str × Str)
  | [] => none
  | c :: rest =>
    if c = '"' then some ([], rest)
    else if c = '\\' then
      match rest with
      | [] => none
      | e :: rest2 =>
        if e = 'u' then
          match rest2 with
          | h1 :: h2 :: h3 :: h4 :: rest3 =>
            match hexVal h1, hexVal h2, hexVal h3, hexVal h4 with
            | some v1, some v2, some v3, some v4 =>
              match parseJStringBody rest3 with
              | some (cs, r) =>
                some (Char.ofNat (((v1 * 16 + v2) * 16 + v3) * 16 + v4) :: cs, r)
              | none => none
            | _, _, _, _ => none
          | _ => none
        else
          match escChar e with
          | some ec =>
            match parseJStringBody rest2 with
            | some (cs, r) => some (ec :: cs, r)
            | none => none
          | none => none
    else if c.toNat < 32 then none
    else
      match parseJStringBody rest with
      | some (cs, r) => some (c :: cs, r)
      | none => none

/-- Parse a JSON number lexeme: `-? (0 | [1-9][0-9]*) (\.[0-9]+)?
([eE][+-]?[0-9]+)?`.  Returns the lexeme and the remaining input. -/
def parseNumber (s : Str) : Option (Str × Str) :=
  let signRest : Str × Str :=
    match s with
    | '-' :: t => (['-'], t)
    | _ => ([], s)
  let sign := signRest.1
  let s1 := signRest.2
  let intPart := s1.takeWhile isJDigit
  let r1 := s1.dropWhile isJDigit
  if intPart = [] then none
  else if 1 < intPart.length ∧ intPart.headI = '0' then none
  else
    let fracRest : Option (Str × Str) :=
      match r1 with
      | '.' :: t =>
        if t.takeWhile isJDigit = [] then none
        else some ('.' :: t.takeWhile isJDigit, t.dropWhile isJDigit)
      | _ => some ([], r1)
    match fracRest with
    | none => none
    | some (fracPart, r2) =>
      let expRest : Option (Str × Str) :=
        match r2 with
        | e :: t =>
          if e = 'e' ∨ e = 'E' then
            match t with
            | sc :: t2 =>
              if sc = '+' ∨ sc = '-' then
                if t2.takeWhile isJDigit = [] then none
                else some (e :: sc :: t2.takeWhile isJDigit, t2.dropWhile isJDigit)
              else
                if t.takeWhile isJDigit = [] then none
                else some (e :: t.takeWhile isJDigit, t.dropWhile isJDigit)
            | [] => none
          else some ([], r2)
        | [] => some ([], r2)
      match expRest with
      | none => none
      | some (expPart, r3) => some (sign ++ intPart ++ fracPart ++ expPart, r3)

mutual

/-- Parse one JSON value (fuel-indexed recursive descent). -/
def parseValue : Nat → Str → Option (Json × Str)
  | 0, _ => none
  | fuel + 1, s =>
    match skipJsonWs s with
    | [] => none
    | c :: rest =>
      if c = 'n' then
        if (chs "ull").isPrefixOf rest then some (Json.null, rest.drop 3) else none
      else if c = 't' then
        if (chs "rue").isPrefixOf rest then some (Json.bool true, rest.drop 3) else none
      else if c = 'f' then
        if (chs "alse").isPrefixOf rest then some (Json.bool false, rest.drop 4) else none
      else if c = '"' then
        match parseJStringBody rest with
        | some (cs, r) => some (Json.str cs, r)
        | none => none
      else if c = '[' then
        match skipJsonWs rest with
        | ']' :: r2 => some (Json.arr [], r2)
        | r => parseElems fuel r []
      else if c = lbraceC then
        match skipJsonWs rest with
        | rc :: r2 =>
          if rc = rbraceC then some (Json.obj [], r2)
          else parseMembers fuel (rc :: r2) []
        | [] => none
      else
        match parseNumber (c :: rest) with
        | some (lex, r) => some (Json.num lex, r)
        | none => none

/-- Parse the comma-separated elements of a JSON array. -/
def parseElems : Nat → Str → List Json → Option (Json × Str)
  | 0, _, _ => none
  | fuel + 1, s, acc =>
    match parseValue fuel s with
    | none => none
    | some (v, r) =>
      match skipJsonWs r with
      | ',' :: r2 => parseElems fuel r2 (acc ++ [v])
      | ']' :: r2 => some (Json.arr (acc ++ [v]), r2)
      | _ => none

/-- Parse the comma-separated members of a JSON object. -/
def parseMembers : Nat → Str → List (Str × Json) → Option (Json × Str)
  | 0, _, _ => none
  | fuel + 1, s, acc =>
    match skipJsonWs s with
    | '"' :: r =>
      match parseJStringBody r with
      | some (key, r2) =>
        match skipJsonWs r2 with
        | ':' :: r3 =>
          match parseValue fuel r3 with
          | some (v, r4) =>
            match skipJsonWs r4 with
            | ',' :: r5 => parseMembers fuel r5 (acc ++ [(key, v)])
            | rc :: r5 =>
              if rc = rbraceC then some (Json.obj (acc ++ [(key, v)]), r5) else none
            | [] => none
          | none => none
        | _ => none
      | none => none
    | _ => none

end

/-- The failure raised by `json.loads` (`json.JSONDecodeError`). -/
inductive JsonError where
  | decodeError : JsonError
deriving Repr, DecidableEq

/-- `json.loads`: parse one JSON document, requiring only whitespace after
it.  `4 * length + 4` fuel dominates the recursion depth (every nesting level
consumes at least one character and at most four fuel units). -/
def json_loads (s : Str) : Except JsonError Json :=
  match parseValue (4 * s.length + 4) s with
  | some (v, rest) =>
    if skipJsonWs rest = [] then Except.ok v else Except.error JsonError.decodeError
  | none => Except.error JsonError.decodeError

example : json_loads (chs "null") = Except.ok Json.null := rfl

example : json_loads (chs " [1, \"a\\n\", true] ")
    = Except.ok (Json.arr [Json.num (chs "1"), Json.str (chs "a\n"), Json.bool true]) := rfl

example : json_loads (chs "\x7b\"analysis\": \x7b\x7d, \"k\": [false, -2.5e3]\x7d")
    = Except.ok (Json.obj [(chs "analysis", Json.obj []),
        (chs "k", Json.arr [Json.bool false, Json.num (chs "-2.5e3")])]) := rfl

example : json_loads (chs "garbage") = Except.error JsonError.decodeError := rfl

example : json_loads (chs "\"a") = Except.error JsonError.decodeError := rfl

example : json_loads (chs "01") = Except.error JsonError.decodeError := rfl

example : json_loads (chs "") = Except.error JsonError.decodeError := rfl

/-! ## Change extraction (`analyze_file`, bot.py lines 176-228)

The three `re.search` patterns are modelled by dedicated search functions
with the exact leftmost-match and quantifier-priority semantics of the
Python `re` module for those patterns:

* tier 1 (line 178): ``` ```(?:json)?\s*(.+?)\s*``` ``` with `re.DOTALL` —
  leftmost fence; the optional `json` tag is tried greedily; the first `\s*`
  is greedy with backtracking; the captured `.+?` is lazy (shortest); the
  closing `\s*` is greedy but backtrack-free because it is followed by a
  literal starting with a non-whitespace character;
* tier 2 (line 190): `(\{\s*"analysis".*?\}\s*$)` with `re.DOTALL` — since
  the group extends through `\s*$`, a successful match always captures the
  whole text from the brace to the end;
* tier 4 (line 214): `(\{.*\})` with `re.DOTALL` — first `{` having any
  later `}`, captured through the last `}` (greedy `.*`). -/

/-- The three-backtick fence literal. -/
def ticks : Str := chs "\x60\x60\x60"

/-- The optional `json` tag after the opening fence. -/
def jsonTag : Str := chs "json"

/-- Does `\s*` followed by the closing fence match here?  (`\s*` is greedy;
no backtracking is possible because a backtick is not whitespace.) -/
def tailTicks (s : Str) : Bool := ticks.isPrefixOf (s.dropWhile isPyWs)

/-- The lazy captured group `(.+?)` of tier 1: consume the shortest non-empty
prefix after which `\s*`+fence matches. -/
def lazyScan : Str → Option Str
  | [] => none
  | c :: rest =>
    if tailTicks rest then some [c]
    else
      match lazyScan rest with
      | some g => some (c :: g)
      | none => none

/-- The greedy first `\s*` of tier 1 with backtracking: try the longest
whitespace run first, then shorter ones. -/
def wsLazyAux (s2 : Str) : Nat → Option Str
  | 0 => lazyScan s2
  | k + 1 =>
    match lazyScan (s2.drop (k + 1)) with
    | some g => some g
    | none => wsLazyAux s2 k

def wsLazy (s2 : Str) : Option Str :=
  wsLazyAux s2 (s2.takeWhile isPyWs).length

/-- Attempt the tier-1 pattern at one position; returns the captured group.
The optional `json` tag is greedy: the tagged alternative is tried first. -/
def matchP1At (s : Str) : Option Str :=
  if ticks.isPrefixOf s then
    if jsonTag.isPrefixOf (s.drop 3) then
      match wsLazy (s.drop 7) with
      | some g => some g
      | none => wsLazy (s.drop 3)
    else wsLazy (s.drop 3)
  else none

/-- `re.search` of the tier-1 pattern: leftmost matching position wins.
(The pattern needs at least one character, so the empty suffix never
matches.) -/
def searchP1 : Str → Option Str
  | [] => none
  | c :: rest =>
    match matchP1At (c :: rest) with
    | some g => some g
    | none => searchP1 rest

theorem searchP1_pos (s g : Str) (h : matchP1At s = some g) : searchP1 s = some g := by
  cases s with
  | nil =>
    have h0 : matchP1At ([] : Str) = none := rfl
    rw [h0] at h
    exact Option.noConfusion h
  | cons c rest =>
    rw [searchP1, h]

example : searchP1 (chs "prose \x60\x60\x60json\n\x7b\"a\": 1\x7d\n\x60\x60\x60 more")
    = some (chs "\x7b\"a\": 1\x7d") := rfl

example : searchP1 (chs "\x60\x60\x60json\x60\x60\x60") = some (chs "json") := rfl

example : searchP1 (chs "no fences here") = none := rfl

/-- The literal `"analysis"` (with quotes) of the tier-2 pattern. -/
def analysisKeyLit : Str := chs "\"analysis\""

/-- Does some position of `s` carry `}` followed only by whitespace?  This is
`.*?\}\s*$` after the `"analysis"` literal: the lazy run can land on any
closing brace whose tail is all whitespace (`$` matches at the end or before
a final newline; combined with the greedy `\s*` this is equivalent to an
all-whitespace tail). -/
def hasCloseBraceWsTail : Str → Bool
  | [] => false
  | c :: rest => (c = rbraceC && rest.all isPyWs) || hasCloseBraceWsTail rest

/-- Attempt the tier-2 pattern at one position.  A successful match always
captures the entire remaining text (the group runs through `\s*$`). -/
def matchP2At : Str → Option Str
  | [] => none
  | c :: rest =>
    if c = lbraceC then
      if analysisKeyLit.isPrefixOf (rest.dropWhile isPyWs) then
        if hasCloseBraceWsTail ((rest.dropWhile isPyWs).drop 10) then some (c :: rest)
        else none
      else none
    else none

/-- `re.search` of the tier-2 pattern: leftmost matching position wins. -/
def searchP2 : Str → Option Str
  | [] => none
  | c :: rest =>
    match matchP2At (c :: rest) with
    | some g => some g
    | none => searchP2 rest

example : searchP2 (chs "text \x7b \"analysis\": 1\x7d\n")
    = some (chs "\x7b \"analysis\": 1\x7d\n") := rfl

example : searchP2 (chs "\x7b\"analysis\": 1\x7d trailing") = none := rfl

/-- The prefix of `s` through its last `}`, if `s` contains one (the greedy
`.*\}` of tier 4). -/
def takeToLastBrace (s : Str) : Option Str :=
  if s.reverse.findIdx (fun c => c == rbraceC) < s.length then
    some (s.take (s.length - s.reverse.findIdx (fun c => c == rbraceC)))
  else none

/-- Attempt the tier-4 pattern `(\{.*\})` at one position. -/
def matchP3At : Str → Option Str
  | [] => none
  | c :: rest =>
    if c = lbraceC then
      match takeToLastBrace rest with
      | some t => some (c :: t)
      | none => none
    else none

/-- `re.search` of the tier-4 pattern: leftmost `{` having a later `}`. -/
def searchP3 : Str → Option Str
  | [] => none
  | c :: rest =>
    match matchP3At (c :: rest) with
    | some g => some g
    | none => searchP3 rest

example : searchP3 (chs "ab \x7bx\x7d y\x7d tail") = some (chs "\x7bx\x7d y\x7d") := rfl

example : searchP3 (chs "no braces") = none := rfl

example : searchP3 (chs "\x7b open only") = none := rfl

/-- Tier 3 and its nested tier-4 fallback (bot.py lines 201-224): parse the
whole text; on `JSONDecodeError`, search for the widest brace-delimited
region and try parsing it, swallowing any failure (`except Exception:
pass`); finally return `None`. -/
def extract_tier3 (text : Str) : Except JsonError (Option Json) :=
  match json_loads text with
  | Except.ok j => Except.ok (some j)
  | Except.error _ =>
    match searchP3 text with
    | some g =>
      match json_loads g with
      | Except.ok j => Except.ok (some j)
      | Except.error _ => Except.ok none
    | none => Except.ok none

/-- Tier 2 (bot.py lines 189-199): the `{"analysis" ... } $` region, its
`JSONDecodeError` caught and control passed to tier 3. -/
def extract_tier2 (text : Str) : Except JsonError (Option Json) :=
  match searchP2 text with
  | some g =>
    match json_loads g with
    | Except.ok j => Except.ok (some j)
    | Except.error _ => extract_tier3 text
  | none => extract_tier3 text

/-- The full extraction cascade of `analyze_file` (bot.py lines 176-224),
with the exception behaviour explicit: every `json.loads` call is guarded by
a handler, so a decode failure selects the next tier instead of
propagating. -/
def extract_analysis_exc (text : Str) : Except JsonError (Option Json) :=
  match searchP1 text with
  | some g =>
    match json_loads g with
    | Except.ok j => Except.ok (some j)
    | Except.error _ => extract_tier2 text
  | none => extract_tier2 text

/-- The analysis payload returned by `analyze_file` on success: the
dictionary `{'file_path': ..., 'analysis': ...}` built at bot.py lines
182-185, 194-197, 204-207 and 217-220 — exactly these two keys. -/
structure AnalysisPayload where
  file_path : Str
  analysis : Json

/-- `analyze_file` (bot.py lines 88-228).  The network call and the
response-field access (`response['choices'][0]['message']['content']`) are
external; their combined outcome is the `api_response` parameter.  An
exception there, or anywhere else inside the body, is caught by the
enclosing `try`/`except` (line 226) and turned into `None`. -/
def analyze_file (path : Str) (api_response : Except PyErr Str) :
    Option AnalysisPayload :=
  match api_response with
  | Except.error _ => none
  | Except.ok text =>
    match extract_analysis_exc text with
    | Except.ok (some j) => some ⟨path, j⟩
    | Except.ok none => none
    | Except.error _ => none

/-- C2: the change-extraction cascade is total and never propagates an
exception: for every raw response text, including unparsable garbage, it
returns `Except.ok` — either a parsed payload or the `None` failure signal —
because every `json.loads` call site is wrapped in a handler. -/
theorem extractor_never_raises (text : Str) :
    ∃ r : Option Json, extract_analysis_exc text = Except.ok r := by
  unfold extract_analysis_exc extract_tier2 extract_tier3
  repeat' split
  all_goals exact ⟨_, rfl⟩

theorem extractor_never_raises_witness :
    ∃ r : Option Json,
      extract_analysis_exc (chs "complete \x60\x60\x60 garbage \x7b[:") = Except.ok r :=
  extractor_never_raises (chs "complete \x60\x60\x60 garbage \x7b[:")

example : extract_analysis_exc (chs "complete \x60\x60\x60 garbage \x7b[:")
    = Except.ok none := rfl

/-- C10: `analyze_file` returns either `None` or a payload with exactly the
two fields `file_path` and `analysis`, where `file_path` equals the input
file's path — on every success and failure path. -/
theorem analyze_file_result_shape (path : Str) (api : Except PyErr Str) :
    analyze_file path api = none
    ∨ ∃ j, analyze_file path api = some ⟨path, j⟩ := by
  unfold analyze_file
  cases api with
  | error e => exact Or.inl rfl
  | ok text =>
    rcases hx : extract_analysis_exc text with e | r
    · exact Or.inl (by simp [hx])
    · cases r with
      | none => exact Or.inl (by simp [hx])
      | some j => exact Or.inr ⟨j, by simp [hx]⟩

theorem analyze_file_result_shape_witness :
    analyze_file (chs "src/a.py") (Except.ok (chs "\x7b\"analysis\": 1\x7d")) = none
    ∨ ∃ j, analyze_file (chs "src/a.py") (Except.ok (chs "\x7b\"analysis\": 1\x7d"))
        = some ⟨chs "src/a.py", j⟩ :=
  analyze_file_result_shape (chs "src/a.py") (Except.ok (chs "\x7b\"analysis\": 1\x7d"))

/-! ### Characterization lemmas for the tier-1 search -/

/-- `lazyScan` takes the shortest non-empty prefix after which the closing
`\s*`+fence matches. -/
theorem lazyScan_eq_take (s : Str) (n : Nat) (h1 : 1 ≤ n) (h2 : n ≤ s.length)
    (hlt : ∀ i, 1 ≤ i → i < n → tailTicks (s.drop i) = false)
    (hn : tailTicks (s.drop n) = true) :
    lazyScan s = some (s.take n) := by
  induction s generalizing n with
  | nil => simp at h2; omega
  | cons c rest ih =>
    rw [lazyScan]
    by_cases hone : n = 1
    · subst hone
      rw [if_pos (by simpa using hn)]
      simp
    · have h2n : 2 ≤ n := by omega
      have hr1 : tailTicks rest = false := by simpa using hlt 1 le_rfl (by omega)
      rw [if_neg (by simp [hr1])]
      have ihres := ih (n - 1) (by omega) (by simp at h2; omega)
        (fun i hi1 hi2 => by
          have := hlt (i + 1) (by omega) (by omega)
          simpa using this)
        (by
          have hdq : (c :: rest).drop n = rest.drop (n - 1) := by
            cases n with
            | zero => omega
            | succ m => simp
          rw [← hdq]
          exact hn)
      rw [ihres]
      have htq : (c :: rest).take n = c :: rest.take (n - 1) := by
        cases n with
        | zero => omega
        | succ m => simp
      rw [htq]

/-- The fence cannot start at a character that is not a backtick. -/
theorem ticks_not_prefix_cons (d : Char) (y : Str) (h : ¬ d = '\x60') :
    ticks.isPrefixOf (d :: y) = false := by
  show (('\x60' == d) && List.isPrefixOf ['\x60', '\x60'] y) = false
  have hb : ('\x60' == d) = false := by
    rw [beq_eq_false_iff_ne]
    exact fun he => h he.symm
  rw [hb, Bool.false_and]

/-- `\s*`+fence fails when the first non-whitespace character ahead is not a
backtick. -/
theorem tailTicks_false_of_no_tick (u z : Str)
    (hnws : ¬ ∀ a ∈ u, isPyWs a = true)
    (htick : ∀ a ∈ u, ¬ a = '\x60') :
    tailTicks (u ++ z) = false := by
  unfold tailTicks
  have hne : u.dropWhile isPyWs ≠ [] := by
    rw [Ne, List.dropWhile_eq_nil_iff]
    exact hnws
  rw [List.dropWhile_append, if_neg (by simpa [List.isEmpty_iff] using hne)]
  rcases hd : u.dropWhile isPyWs with _ | ⟨d, t⟩
  · exact absurd hd hne
  · have hdmem : d ∈ u := by
      have hmem : d ∈ u.dropWhile isPyWs := by
        rw [hd]
        exact List.mem_cons_self d t
      exact ((List.dropWhile_suffix isPyWs).sublist.subset) hmem
    rw [List.cons_append]
    exact ticks_not_prefix_cons d (t ++ z) (htick d hdmem)

/-- `\s*`+fence succeeds across a whitespace run followed by a newline and
the fence. -/
theorem tailTicks_ws_append (w : Str) (hw : ∀ a ∈ w, isPyWs a = true) :
    tailTicks (w ++ '\n' :: ticks) = true := by
  unfold tailTicks
  rw [List.dropWhile_append_of_pos hw]
  rfl

/-- Right-trimming is idempotent. -/
theorem pyTrimRight_idem (b : Str) : pyTrimRight (pyTrimRight b) = pyTrimRight b := by
  unfold pyTrimRight
  rw [List.reverse_reverse]
  congr 1
  rcases h : b.reverse.dropWhile isPyWs with _ | ⟨d, t⟩
  · rfl
  · have hd : isPyWs d = false := by
      have h0 := List.head?_dropWhile_not isPyWs b.reverse
      rw [h] at h0
      simpa using h0
    rw [List.dropWhile_cons_of_neg (by simp [hd])]

/-- A right-trimmed string decomposes the original as itself plus an
all-whitespace tail. -/
theorem pyTrimRight_decomp (b : Str) :
    pyTrimRight b ++ (b.reverse.takeWhile isPyWs).reverse = b
    ∧ ∀ a ∈ (b.reverse.takeWhile isPyWs).reverse, isPyWs a = true := by
  constructor
  · conv_rhs => rw [← b.reverse_reverse]
    conv_rhs =>
      rw [← List.takeWhile_append_dropWhile (p := isPyWs) (l := b.reverse)]
    rw [List.reverse_append]
    rfl
  · intro a ha
    rw [List.mem_reverse] at ha
    exact List.mem_takeWhile_imp ha

/-- No non-empty suffix of a right-trimmed string is all whitespace. -/
theorem not_all_ws_drop_of_trimmed (x : Str) (hx : pyTrimRight x = x) (i : Nat)
    (hi : i < x.length) : ¬ ∀ a ∈ x.drop i, isPyWs a = true := by
  intro hall
  have hu_ne : x.drop i ≠ [] := by
    intro h0
    rw [List.drop_eq_nil_iff] at h0
    omega
  have hrev : x.reverse = (x.drop i).reverse ++ (x.take i).reverse := by
    rw [← List.reverse_append, List.take_append_drop]
  rcases hu : (x.drop i).reverse with _ | ⟨d, t⟩
  · exact hu_ne (by simpa using congrArg List.reverse hu)
  · have hd_mem : d ∈ x.drop i := by
      rw [← List.mem_reverse, hu]
      exact List.mem_cons_self d t
    have hd_ws : isPyWs d = true := hall d hd_mem
    have h1 : x.reverse.dropWhile isPyWs = x.reverse := by
      have h2 := congrArg List.reverse hx
      rw [pyTrimRight, List.reverse_reverse] at h2
      exact h2
    rw [hrev, hu, List.cons_append, List.dropWhile_cons_of_pos hd_ws] at h1
    have hlen := congrArg List.length h1
    have hle : ((t ++ (x.take i).reverse).dropWhile isPyWs).length
        ≤ (t ++ (x.take i).reverse).length :=
      (List.dropWhile_suffix isPyWs).sublist.length_le
    simp only [List.length_cons] at hlen
    omega

/-- Inside a fenced block, the lazy group stops exactly at the right-trimmed
contents: earlier stops see a non-backtick ahead, and at the trim boundary
only whitespace and the closing fence remain. -/
theorem lazyScan_fenced (b : Str)
    (hb_ne : pyTrimRight b ≠ [])
    (htick : ∀ x ∈ b, ¬ x = '\x60') :
    lazyScan (b ++ '\n' :: ticks) = some (pyTrimRight b) := by
  obtain ⟨hdecomp, hws⟩ := pyTrimRight_decomp b
  have hform : b ++ '\n' :: ticks
      = pyTrimRight b ++ ((b.reverse.takeWhile isPyWs).reverse ++ '\n' :: ticks) := by
    conv_lhs => rw [← hdecomp]
    rw [List.append_assoc]
  have h1 : 1 ≤ (pyTrimRight b).length := List.length_pos.mpr hb_ne
  have hsub : ∀ x ∈ pyTrimRight b, ¬ x = '\x60' := by
    intro x hx
    have hpre : pyTrimRight b <+: b := ⟨_, hdecomp⟩
    exact htick x (hpre.sublist.subset hx)
  have hlt : ∀ i, 1 ≤ i → i < (pyTrimRight b).length →
      tailTicks ((pyTrimRight b
        ++ ((b.reverse.takeWhile isPyWs).reverse ++ '\n' :: ticks)).drop i) = false := by
    intro i hi1 hi2
    rw [List.drop_append_of_le_length (by omega)]
    apply tailTicks_false_of_no_tick
    · exact not_all_ws_drop_of_trimmed (pyTrimRight b) (pyTrimRight_idem b) i hi2
    · intro x hx
      exact hsub x ((List.drop_suffix i (pyTrimRight b)).sublist.subset hx)
  have hn : tailTicks ((pyTrimRight b
      ++ ((b.reverse.takeWhile isPyWs).reverse ++ '\n' :: ticks)).drop
        (pyTrimRight b).length) = true := by
    rw [List.drop_left]
    exact tailTicks_ws_append _ hws
  have hmain := lazyScan_eq_take _ (pyTrimRight b).length h1 (by simp) hlt hn
  rw [List.take_left] at hmain
  rw [hform, hmain]

/-- C7 (amended): a model response consisting of a fenced ```json block whose
contents — after stripping surrounding whitespace, which the regex assigns to
its `\s*` runs — are a valid JSON document containing no backtick character
is extracted at the first tier: the fenced-block regex captures exactly the
stripped contents, their parse succeeds, and the returned payload is the
direct JSON parse of those contents (no later tier is consulted). -/
theorem fenced_json_first_tier (inner : Str) (j : Json)
    (htick : ∀ x ∈ inner, ¬ x = '\x60')
    (hload : json_loads (pyStrip inner) = Except.ok j) :
    searchP1 (chs "\x60\x60\x60json\n" ++ inner ++ chs "\n\x60\x60\x60")
      = some (pyStrip inner)
    ∧ extract_analysis_exc (chs "\x60\x60\x60json\n" ++ inner ++ chs "\n\x60\x60\x60")
      = Except.ok (some j) := by
  have hstrip_ne : pyStrip inner ≠ [] := by
    intro h0
    rw [h0] at hload
    have hload' : (Except.error JsonError.decodeError : Except JsonError Json)
        = Except.ok j := hload
    exact Except.noConfusion hload'
  have hb_ne : pyTrimRight (pyTrimLeft inner) ≠ [] := hstrip_ne
  have hab : inner.takeWhile isPyWs ++ pyTrimLeft inner = inner :=
    List.takeWhile_append_dropWhile isPyWs inner
  have hbne' : pyTrimLeft inner ≠ [] := by
    intro h0
    apply hb_ne
    rw [h0]
    rfl
  have hbtick : ∀ x ∈ pyTrimLeft inner, ¬ x = '\x60' := by
    intro x hx
    apply htick
    rw [← hab]
    exact List.mem_append_right _ hx
  have htext : chs "\x60\x60\x60json\n" ++ inner ++ chs "\n\x60\x60\x60"
      = ticks ++ (jsonTag ++ ('\n' :: (inner ++ '\n' :: ticks))) := by
    have h3 : chs "\x60\x60\x60json\n" = (ticks ++ jsonTag) ++ ['\n'] := rfl
    have h4 : chs "\n\x60\x60\x60" = '\n' :: ticks := rfl
    rw [h3, h4]
    simp [List.append_assoc]
  have hkmax : (('\n' :: (inner ++ '\n' :: ticks)).takeWhile isPyWs).length
      = (inner.takeWhile isPyWs).length + 1 := by
    rw [List.takeWhile_cons_of_pos (by rfl)]
    rw [List.takeWhile_append]
    have hlen_ne : ¬ (inner.takeWhile isPyWs).length = inner.length := by
      intro hlen
      have hsum := congrArg List.length hab
      rw [List.length_append] at hsum
      have : (pyTrimLeft inner).length = 0 := by omega
      exact hbne' (List.eq_nil_of_length_eq_zero this)
    rw [if_neg hlen_ne]
    simp
  have hdropk : ('\n' :: (inner ++ '\n' :: ticks)).drop ((inner.takeWhile isPyWs).length + 1)
      = pyTrimLeft inner ++ '\n' :: ticks := by
    rw [List.drop_succ_cons]
    have hre : inner ++ '\n' :: ticks
        = inner.takeWhile isPyWs ++ (pyTrimLeft inner ++ '\n' :: ticks) := by
      conv_lhs => rw [← hab]
      rw [List.append_assoc]
    rw [hre]
    exact List.drop_left _ _
  have hlazy : lazyScan (pyTrimLeft inner ++ '\n' :: ticks)
      = some (pyTrimRight (pyTrimLeft inner)) :=
    lazyScan_fenced (pyTrimLeft inner) hb_ne hbtick
  have hwsl : wsLazy ('\n' :: (inner ++ '\n' :: ticks))
      = some (pyStrip inner) := by
    unfold wsLazy
    rw [hkmax, wsLazyAux, hdropk, hlazy]
    rfl
  have hm : matchP1At (ticks ++ (jsonTag ++ ('\n' :: (inner ++ '\n' :: ticks))))
      = some (pyStrip inner) := by
    unfold matchP1At
    rw [if_pos (List.isPrefixOf_iff_prefix.mpr ⟨_, rfl⟩)]
    rw [List.drop_left' (show ticks.length = 3 from rfl)]
    rw [if_pos (List.isPrefixOf_iff_prefix.mpr ⟨_, rfl⟩)]
    have hd7 : (ticks ++ (jsonTag ++ ('\n' :: (inner ++ '\n' :: ticks)))).drop 7
        = '\n' :: (inner ++ '\n' :: ticks) := by
      rw [show (7 : Nat) = ticks.length + 4 from rfl, List.drop_append]
      exact List.drop_left' rfl
    rw [hd7, hwsl]
  have hs : searchP1 (ticks ++ (jsonTag ++ ('\n' :: (inner ++ '\n' :: ticks))))
      = some (pyStrip inner) :=
    searchP1_pos _ _ hm
  refine ⟨?_, ?_⟩
  · rw [htext, hs]
  · rw [htext]
    unfold extract_analysis_exc
    rw [hs]
    simp only [hload]

/-- Counterexample to C7 as stated: the fence contents `"a```b"` are a valid
JSON document (a string containing backticks), but the lazy tier-1 group
stops at the inner triple backtick, capturing the unparsable `"a`; every
later tier also fails, so extraction returns the failure signal instead of
succeeding at tier 1 with the parse of the contents. -/
theorem fenced_json_counterexample :
    json_loads (pyStrip (chs "\"a\x60\x60\x60b\"")) = Except.ok (Json.str (chs "a\x60\x60\x60b"))
    ∧ searchP1 (chs "\x60\x60\x60json\n" ++ chs "\"a\x60\x60\x60b\"" ++ chs "\n\x60\x60\x60")
      = some (chs "\"a")
    ∧ extract_analysis_exc
        (chs "\x60\x60\x60json\n" ++ chs "\"a\x60\x60\x60b\"" ++ chs "\n\x60\x60\x60")
      = Except.ok none :=
  ⟨rfl, rfl, rfl⟩

theorem fenced_json_first_tier_witness :
    searchP1 (chs "\x60\x60\x60json\n" ++ chs "\x7b\"analysis\": 1\x7d" ++ chs "\n\x60\x60\x60")
      = some (pyStrip (chs "\x7b\"analysis\": 1\x7d"))
    ∧ extract_analysis_exc
        (chs "\x60\x60\x60json\n" ++ chs "\x7b\"analysis\": 1\x7d" ++ chs "\n\x60\x60\x60")
      = Except.ok (some (Json.obj [(chs "analysis", Json.num (chs "1"))])) :=
  fenced_json_first_tier (chs "\x7b\"analysis\": 1\x7d")
    (Json.obj [(chs "analysis", Json.num (chs "1"))])
    (by decide) (by rfl)
